import Mathlib

/-!
Verification development for the PAI AeroNews pipeline
(scripts/fetch-rss.js, scripts/analyst-mode.js, scripts/usage-limit.js).

JavaScript strings are modeled as lists of UTF-16 code units (`List Nat`);
all text-processing functions below are direct translations of the
corresponding JavaScript functions, with regular-expression passes realized
as explicit scanners with the same matching semantics.
-/

namespace AeroNews

/-- Text as a list of UTF-16 code units, the unit `charCodeAt` exposes. -/
abbrev JStr := List Nat

/-- Code units of an ASCII/BMP string literal (for BMP text the Unicode
code point equals the UTF-16 code unit). -/
def cu (s : String) : JStr := s.toList.map Char.toNat

/-- Membership of a string in a list of strings (models `Set.has` on URL
strings and similar checks). -/
def memCU : JStr → List JStr → Bool
  | _, [] => false
  | u, v :: rest => u == v || memCU u rest

/-- Boolean prefix test on code-unit strings. -/
def isPrefixCU : JStr → JStr → Bool
  | [], _ => true
  | _ :: _, [] => false
  | a :: as, b :: bs => a == b && isPrefixCU as bs

/-- Substring occurrence test: models JavaScript `String.prototype.includes`
and the existence of a fixed-pattern regex match. -/
def containsSub (pat : JStr) : JStr → Bool
  | [] => isPrefixCU pat []
  | c :: rest => isPrefixCU pat (c :: rest) || containsSub pat rest

/-- Scanner for `String.prototype.replace` with a global fixed-string
pattern: left to right, non-overlapping, resuming after each replacement.
The `skip` counter consumes the remainder of a match already emitted. -/
def raGo (pat rep : JStr) : Nat → JStr → JStr
  | _, [] => []
  | 0, c :: rest =>
    if isPrefixCU pat (c :: rest) && !pat.isEmpty then
      rep ++ raGo pat rep (pat.length - 1) rest
    else
      c :: raGo pat rep 0 rest
  | skip + 1, _ :: rest => raGo pat rep skip rest

/-- JavaScript `text.replace(/pat/g, rep)` for a fixed pattern `pat`. -/
def replaceAll (pat rep s : JStr) : JStr := raGo pat rep 0 s

/-- JavaScript whitespace class `\s` over code units: tab through carriage
return, space, NBSP, and the Unicode space separators JS includes. -/
def isSpaceCU (c : Nat) : Bool :=
  (9 ≤ c && c ≤ 13) || c == 32 || c == 160 || c == 5760 ||
  (8192 ≤ c && c ≤ 8202) || c == 8232 || c == 8233 || c == 8239 ||
  c == 8287 || c == 12288 || c == 65279

/-- Decimal digit code unit. -/
def isDigitCU (c : Nat) : Bool := 48 ≤ c && c ≤ 57

/-- Hexadecimal digit code unit (matches `[0-9a-fA-F]`). -/
def isHexDigitCU (c : Nat) : Bool :=
  (48 ≤ c && c ≤ 57) || (97 ≤ c && c ≤ 102) || (65 ≤ c && c ≤ 70)

/-- Uppercase ASCII letter (matches `[A-Z]`). -/
def isUpperAZ (c : Nat) : Bool := 65 ≤ c && c ≤ 90

/-- ASCII letter (matches `[A-Za-z]`). -/
def isAlphaCU (c : Nat) : Bool := (65 ≤ c && c ≤ 90) || (97 ≤ c && c ≤ 122)

/-- ASCII lowercasing of one code unit (the keywords the pipeline matches
are all ASCII, so this models `toLowerCase` on the relevant alphabet). -/
def toLowerCU (c : Nat) : Nat := if 65 ≤ c && c ≤ 90 then c + 32 else c

/-- Models `String.prototype.toLowerCase` (ASCII fragment). -/
def toLowerStr (s : JStr) : JStr := s.map toLowerCU

/-- Numeric value of a decimal digit run. -/
def digitsToNat (ds : JStr) : Nat := ds.foldl (fun acc d => acc * 10 + (d - 48)) 0

/-- Numeric value of one hexadecimal digit code unit. -/
def hexVal (c : Nat) : Nat :=
  if 48 ≤ c && c ≤ 57 then c - 48
  else if 97 ≤ c && c ≤ 102 then c - 87
  else c - 55

/-- Numeric value of a hexadecimal digit run (models `parseInt(hex, 16)`,
exact for the magnitudes a feed can produce). -/
def hexToNat (ds : JStr) : Nat := ds.foldl (fun acc d => acc * 16 + hexVal d) 0

/-- Parse a decimal character entity body: after `&#`, a nonempty digit run
followed by `;`. Returns the emitted code unit (`String.fromCharCode`
truncates to 16 bits) and the rest of the input. -/
def numEntParse (rest : JStr) : Option (Nat × JStr) :=
  let ds := rest.takeWhile isDigitCU
  match rest.drop ds.length with
  | 59 :: tail => if ds.isEmpty then none else some (digitsToNat ds % 65536, tail)
  | _ => none

/-- Attempt to match `/&#(\d+);/` at the head of the input. -/
def numEntTry : JStr → Option (Nat × JStr)
  | 38 :: 35 :: rest => numEntParse rest
  | _ => none

/-- Scanner for `.replace(/&#(\d+);/g, fromCharCode)`: at each position
either the regex matches (the replacement is emitted and the scan resumes
after the match) or the scan advances one unit; fuel is an upper bound on
the input length, so it never runs out. -/
def numEntGo : Nat → JStr → JStr
  | 0, l => l
  | _ + 1, [] => []
  | fuel + 1, c :: rest =>
    match numEntTry (c :: rest) with
    | some (code, tail) => code :: numEntGo fuel tail
    | none => c :: numEntGo fuel rest

/-- Decimal entity pass of `decodeHtmlEntities`. -/
def numEntRepl (s : JStr) : JStr := numEntGo s.length s

/-- Occurrence test matching the decimal entity scanner. -/
def hasNumEntGo : Nat → JStr → Bool
  | 0, _ => false
  | _ + 1, [] => false
  | fuel + 1, c :: rest =>
    match numEntTry (c :: rest) with
    | some _ => true
    | none => hasNumEntGo fuel rest

/-- Whether a decimal character entity occurs in the string. -/
def hasNumEnt (s : JStr) : Bool := hasNumEntGo s.length s

/-- Parse a hexadecimal character entity body: after `&#x`, a nonempty hex
digit run followed by `;`. -/
def hexEntParse (rest : JStr) : Option (Nat × JStr) :=
  let ds := rest.takeWhile isHexDigitCU
  match rest.drop ds.length with
  | 59 :: tail => if ds.isEmpty then none else some (hexToNat ds % 65536, tail)
  | _ => none

/-- Attempt to match `/&#x([0-9a-fA-F]+);/` at the head of the input. -/
def hexEntTry : JStr → Option (Nat × JStr)
  | 38 :: 35 :: 120 :: rest => hexEntParse rest
  | _ => none

/-- Scanner for `.replace(/&#x([0-9a-fA-F]+);/g, ...)`. -/
def hexEntGo : Nat → JStr → JStr
  | 0, l => l
  | _ + 1, [] => []
  | fuel + 1, c :: rest =>
    match hexEntTry (c :: rest) with
    | some (code, tail) => code :: hexEntGo fuel tail
    | none => c :: hexEntGo fuel rest

/-- Hexadecimal entity pass of `decodeHtmlEntities`. -/
def hexEntRepl (s : JStr) : JStr := hexEntGo s.length s

/-- Occurrence test matching the hexadecimal entity scanner. -/
def hasHexEntGo : Nat → JStr → Bool
  | 0, _ => false
  | _ + 1, [] => false
  | fuel + 1, c :: rest =>
    match hexEntTry (c :: rest) with
    | some _ => true
    | none => hasHexEntGo fuel rest

/-- Whether a hexadecimal character entity occurs in the string. -/
def hasHexEnt (s : JStr) : Bool := hasHexEntGo s.length s

/-- Translation of `decodeHtmlEntities` from scripts/fetch-rss.js: the
decimal pass, the hexadecimal pass, then the fourteen fixed named-entity
replacements, in source order. -/
def decodeHtmlEntities (text : JStr) : JStr :=
  if text.isEmpty then []
  else
    let t1 := numEntRepl text
    let t2 := hexEntRepl t1
    let t3 := replaceAll (cu ("&amp;")) [38] t2
    let t4 := replaceAll (cu ("&lt;")) [60] t3
    let t5 := replaceAll (cu ("&gt;")) [62] t4
    let t6 := replaceAll (cu ("&quot;")) [34] t5
    let t7 := replaceAll (cu ("&apos;")) [39] t6
    let t8 := replaceAll (cu ("&#39;")) [39] t7
    let t9 := replaceAll (cu ("&nbsp;")) [32] t8
    let t10 := replaceAll (cu ("&mdash;")) [8212] t9
    let t11 := replaceAll (cu ("&ndash;")) [8211] t10
    let t12 := replaceAll (cu ("&hellip;")) [46, 46, 46] t11
    let t13 := replaceAll (cu ("&lsquo;")) [8216] t12
    let t14 := replaceAll (cu ("&rsquo;")) [8217] t13
    let t15 := replaceAll (cu ("&ldquo;")) [8220] t14
    replaceAll (cu ("&rdquo;")) [8221] t15

/-- The named entity patterns of `decodeHtmlEntities`, plus `&#39;`
(also covered by the decimal pass). -/
def namedEntityPatterns : List JStr :=
  [cu ("&amp;"), cu ("&lt;"), cu ("&gt;"), cu ("&quot;"), cu ("&apos;"), cu ("&#39;"),
   cu ("&nbsp;"), cu ("&mdash;"), cu ("&ndash;"), cu ("&hellip;"), cu ("&lsquo;"),
   cu ("&rsquo;"), cu ("&ldquo;"), cu ("&rdquo;")]

/-- A string containing no character-entity sequence: no decimal entity,
no hexadecimal entity, and none of the named entity patterns. -/
def entityFree (s : JStr) : Bool :=
  !hasNumEnt s && !hasHexEnt s && !(namedEntityPatterns.any (fun p => containsSub p s))

/-- Attempt to match `/<[^>]*>/` at the head of the input: a `<` followed
somewhere by `>` matches up to the first such `>`; the result is the
remainder after that `>`. -/
def tagTry : JStr → Option JStr
  | 60 :: rest =>
    match rest.dropWhile (fun d => !(d == 62)) with
    | _ :: tail => some tail
    | [] => none
  | _ => none

/-- Scanner for `.replace(/<[^>]*>/g, '')`: where no tag matches the scan
advances one unit (a `<` with no later `>` never matches, so continuing
past it is exact). -/
def stripTagsGo : Nat → JStr → JStr
  | 0, l => l
  | _ + 1, [] => []
  | fuel + 1, c :: rest =>
    match tagTry (c :: rest) with
    | some tail => stripTagsGo fuel tail
    | none => c :: stripTagsGo fuel rest

/-- Markup-tag removal pass shared by `cleanHeadline` and
`cleanDescription`. -/
def stripTags (s : JStr) : JStr := stripTagsGo s.length s

/-- Scanner for `.replace(/\s+/g, ' ')`: each maximal whitespace run
becomes one space; the flag records whether the previous unit was part of
a run already replaced. -/
def collapseWsGo : Bool → JStr → JStr
  | _, [] => []
  | true, c :: rest =>
    if isSpaceCU c then collapseWsGo true rest else c :: collapseWsGo false rest
  | false, c :: rest =>
    if isSpaceCU c then 32 :: collapseWsGo true rest else c :: collapseWsGo false rest

/-- Whitespace-collapsing pass. -/
def collapseWs (s : JStr) : JStr := collapseWsGo false s

/-- JavaScript `String.prototype.trim` (same whitespace class). -/
def trimCU (s : JStr) : JStr :=
  ((s.dropWhile isSpaceCU).reverse.dropWhile isSpaceCU).reverse

/-- Separator class of the source-suffix regex: `[-–—|]`. -/
def isSepCU (c : Nat) : Bool := c == 45 || c == 8211 || c == 8212 || c == 124

/-- Class `[A-Za-z\s]` of the trailing segment of the source-suffix
regex. -/
def isTailCU (c : Nat) : Bool := isAlphaCU c || isSpaceCU c

/-- Does `/\s+[-–—|]\s+[A-Z][A-Za-z\s]{2,20}$/` match starting exactly at
the head of `l` and extending to the end? Whitespace, the separators, and
`[A-Z]` are pairwise disjoint classes, so the greedy runs are forced and
the trailing `{2,20}$` fixes the final segment to the whole remainder. -/
def suffixMatchAt (l : JStr) : Bool :=
  let ws1 := l.takeWhile isSpaceCU
  let r1 := l.dropWhile isSpaceCU
  !ws1.isEmpty &&
    match r1 with
    | [] => false
    | sep :: r2 =>
      isSepCU sep &&
        let ws2 := r2.takeWhile isSpaceCU
        let r3 := r2.dropWhile isSpaceCU
        !ws2.isEmpty &&
          match r3 with
          | [] => false
          | c :: tail =>
            isUpperAZ c && decide (2 ≤ tail.length) && decide (tail.length ≤ 20) &&
              tail.all isTailCU

/-- Translation of `.replace(/\s+[-–—|]\s+[A-Z][A-Za-z\s]{2,20}$/, '')`:
the leftmost starting position that matches to the end is removed. -/
def stripSourceSuffix : JStr → JStr
  | [] => []
  | c :: rest => if suffixMatchAt (c :: rest) then [] else c :: stripSourceSuffix rest

/-- Translation of `cleanHeadline` from scripts/fetch-rss.js. -/
def cleanHeadline (title : JStr) : JStr :=
  if title.isEmpty then cu ("Aviation News")
  else
    trimCU (collapseWs (stripSourceSuffix (decodeHtmlEntities (stripTags title))))

/-- The cleaning pipeline of `cleanDescription` before length limiting. -/
def cleanDescCore (description : JStr) : JStr :=
  trimCU (collapseWs (decodeHtmlEntities (stripTags description)))

/-- Translation of `cleanDescription` from scripts/fetch-rss.js:
`substring(0, 297) + '...'` when the cleaned text exceeds 300 units. -/
def cleanDescription (description : JStr) : JStr :=
  if description.isEmpty then []
  else
    let cleaned := cleanDescCore description
    if 300 < cleaned.length then cleaned.take 297 ++ [46, 46, 46] else cleaned

/-- A JSON field value as `normalizeArticle` discriminates it: either a
plain string or an object whose `#text` member may be absent. -/
inductive JsonField where
  | str (s : JStr)
  | obj (text : Option JStr)
deriving DecidableEq

/-- The fields of a parsed feed item that `normalizeArticle` reads for the
headline and blurb (absent fields are `none`). -/
structure FeedItem where
  title : Option JsonField := none
  dcTitle : Option JsonField := none
  description : Option JsonField := none
  summary : Option JsonField := none
  content : Option JsonField := none
  contentEncoded : Option JsonField := none
deriving DecidableEq

/-- JavaScript truthiness of a possibly absent field value: absent and the
empty string are falsy, objects are truthy. -/
def fieldTruthy : Option JsonField → Bool
  | none => false
  | some (JsonField.str s) => !s.isEmpty
  | some (JsonField.obj _) => true

/-- First truthy alternative of a `||` chain over fields. -/
def firstTruthy : List (Option JsonField) → Option JsonField
  | [] => none
  | f :: rest => if fieldTruthy f then f else firstTruthy rest

/-- Second step of the extraction: an object is replaced by its `#text`
member, with the given fallback when that member is absent or falsy. -/
def fieldToText (fallback : JStr) : Option JsonField → JStr
  | some (JsonField.str s) => s
  | some (JsonField.obj (some t)) => if t.isEmpty then fallback else t
  | some (JsonField.obj none) => fallback
  | none => fallback

/-- Title extraction of `normalizeArticle`:
`item.title || item['dc:title'] || 'Untitled'`, then the object form is
replaced by `title['#text'] || 'Untitled'`. -/
def extractTitle (item : FeedItem) : JStr :=
  match firstTruthy [item.title, item.dcTitle] with
  | none => cu ("Untitled")
  | some f => fieldToText (cu ("Untitled")) (some f)

/-- Description extraction of `normalizeArticle`:
`item.description || item.summary || item.content || item['content:encoded'] || ''`,
then the object form is replaced by `description['#text'] || ''`. -/
def extractDescription (item : FeedItem) : JStr :=
  match firstTruthy [item.description, item.summary, item.content, item.contentEncoded] with
  | none => []
  | some f => fieldToText [] (some f)

/-- The headline and blurb fields of the record `normalizeArticle`
produces (the other fields are embedded separately where a claim needs
them). -/
def normalizeHeadlineBlurb (item : FeedItem) : JStr × JStr :=
  (cleanHeadline (extractTitle item), cleanDescription (extractDescription item))

/-- Fold of JavaScript 32-bit two complement truncation (`x | 0`, and the
result of `<<` and `&`). `Int.emod` is nonnegative here, so the branch
reproduces the signed range. -/
def toInt32 (x : Int) : Int :=
  let r := x % 4294967296
  if r < 2147483648 then r else r - 4294967296

/-- One iteration of the `generateId` loop:
`hash = ((hash << 5) - hash) + char; hash = hash & hash`. The shift wraps
to 32 bits on its own, then the `&` folds the sum back to 32 bits. -/
def hashStep (h : Int) (c : Nat) : Int := toInt32 (toInt32 (h * 32) - h + (c : Int))

/-- Digit of `Number.prototype.toString(36)` (0-9 then lowercase a-z). -/
def digitChar36 (d : Nat) : Nat := if d < 10 then 48 + d else 87 + d

/-- Base-36 rendering with fuel (the fuel is at least the value, so it
never runs out). -/
def base36Go : Nat → Nat → JStr
  | 0, n => [digitChar36 (n % 36)]
  | fuel + 1, n =>
    if n < 36 then [digitChar36 n]
    else base36Go fuel (n / 36) ++ [digitChar36 (n % 36)]

/-- Models `Math.abs(hash).toString(36)` on a nonnegative integer. -/
def natToBase36 (n : Nat) : JStr := base36Go n n

/-- Translation of `generateId` from scripts/fetch-rss.js: the rolling
hash over `title + "-" + url`, absolute value, base 36. -/
def generateId (title url : JStr) : JStr :=
  natToBase36 ((title ++ [45] ++ url).foldl hashStep 0).natAbs

/-- Modelled from the wording of the specification (section 4.1, ID
generation): a 32-bit rolling hash, additive, left-shift-5 minus self,
folded to 32 bits after each step, over `title + "-" + link`, rendered as
an unsigned base-36 string. Kept separate from `generateId` so that the
two can be compared. -/
def specHashStep (h : Int) (c : Nat) : Int := toInt32 (h * 32 - h + (c : Int))

/-- Specification-side id: the folded rolling hash rendered unsigned in
base 36. -/
def specGenerateId (title url : JStr) : JStr :=
  natToBase36 ((title ++ [45] ++ url).foldl specHashStep 0).natAbs

/-- The article record of the pipeline (`normalizeArticle` output and
manual entries; `priority` is the manual-entry tag, absent on RSS
articles). `publishedAt` is the parsed absolute timestamp used only as a
sort key here. -/
structure Article where
  id : JStr := []
  headline : JStr := []
  blurb : JStr := []
  sourceName : JStr := []
  sourceUrl : JStr := []
  category : JStr := []
  publishedAt : Int := 0
  takeaway : Option JStr := none
  priority : JStr := []
deriving DecidableEq

/-- The lowercased `headline + " " + blurb` text the fallback rules match
against (`article.blurb || ''` equals the blurb string itself). -/
def fallbackText (a : Article) : JStr := toLowerStr (a.headline ++ [32] ++ a.blurb)

/-- Translation of `createFallbackTakeaway` from scripts/fetch-rss.js:
the twelve-way condition cascade in source order. -/
def createFallbackTakeaway (a : Article) : JStr :=
  let text := fallbackText a
  let category := a.category
  if category == cu ("safety") || containsSub (cu ("safety")) text ||
      containsSub (cu ("crash")) text || containsSub (cu ("incident")) text then
    cu ("Safety implications warrant industry attention.")
  else if category == cu ("regulatory") || containsSub (cu ("faa")) text ||
      containsSub (cu ("easa")) text || containsSub (cu ("regulation")) text then
    cu ("Regulatory changes may affect industry operations.")
  else if category == cu ("evtol") || containsSub (cu ("evtol")) text ||
      containsSub (cu ("air taxi")) text || containsSub (cu ("urban air")) text then
    cu ("Urban air mobility advances toward commercial reality.")
  else if category == cu ("drones") || containsSub (cu ("drone")) text ||
      containsSub (cu ("uas")) text || containsSub (cu ("unmanned")) text then
    cu ("Drone technology continues to reshape aviation operations.")
  else if category == cu ("electric") || containsSub (cu ("electric")) text ||
      containsSub (cu ("hybrid")) text || containsSub (cu ("sustainable")) text then
    cu ("Sustainable aviation technology gains momentum.")
  else if containsSub (cu ("boeing")) text then
    cu ("Boeing developments impact global aviation supply chain.")
  else if containsSub (cu ("airbus")) text then
    cu ("Airbus activity reflects European aerospace trends.")
  else if category == cu ("aerospace") || containsSub (cu ("nasa")) text ||
      containsSub (cu ("space")) text then
    cu ("Aerospace developments expand industry horizons.")
  else if category == cu ("military") then
    cu ("Military aviation advances influence broader industry.")
  else if category == cu ("commercial") || containsSub (cu ("airline")) text ||
      containsSub (cu ("airport")) text then
    cu ("Commercial aviation dynamics shape travel industry.")
  else if category == cu ("business-aviation") then
    cu ("Business aviation sector shows evolving market trends.")
  else
    cu ("Industry developments to monitor closely.")

/-- Modelled from the wording of the specification (section 4.3): the
fallback rules as an ordered list of condition-sentence pairs. -/
def fallbackRules : List ((Article → Bool) × JStr) :=
  [(fun a => a.category == cu ("safety") || containsSub (cu ("safety")) (fallbackText a) ||
      containsSub (cu ("crash")) (fallbackText a) || containsSub (cu ("incident")) (fallbackText a),
    cu ("Safety implications warrant industry attention.")),
   (fun a => a.category == cu ("regulatory") || containsSub (cu ("faa")) (fallbackText a) ||
      containsSub (cu ("easa")) (fallbackText a) || containsSub (cu ("regulation")) (fallbackText a),
    cu ("Regulatory changes may affect industry operations.")),
   (fun a => a.category == cu ("evtol") || containsSub (cu ("evtol")) (fallbackText a) ||
      containsSub (cu ("air taxi")) (fallbackText a) || containsSub (cu ("urban air")) (fallbackText a),
    cu ("Urban air mobility advances toward commercial reality.")),
   (fun a => a.category == cu ("drones") || containsSub (cu ("drone")) (fallbackText a) ||
      containsSub (cu ("uas")) (fallbackText a) || containsSub (cu ("unmanned")) (fallbackText a),
    cu ("Drone technology continues to reshape aviation operations.")),
   (fun a => a.category == cu ("electric") || containsSub (cu ("electric")) (fallbackText a) ||
      containsSub (cu ("hybrid")) (fallbackText a) || containsSub (cu ("sustainable")) (fallbackText a),
    cu ("Sustainable aviation technology gains momentum.")),
   (fun a => containsSub (cu ("boeing")) (fallbackText a),
    cu ("Boeing developments impact global aviation supply chain.")),
   (fun a => containsSub (cu ("airbus")) (fallbackText a),
    cu ("Airbus activity reflects European aerospace trends.")),
   (fun a => a.category == cu ("aerospace") || containsSub (cu ("nasa")) (fallbackText a) ||
      containsSub (cu ("space")) (fallbackText a),
    cu ("Aerospace developments expand industry horizons.")),
   (fun a => a.category == cu ("military"),
    cu ("Military aviation advances influence broader industry.")),
   (fun a => a.category == cu ("commercial") || containsSub (cu ("airline")) (fallbackText a) ||
      containsSub (cu ("airport")) (fallbackText a),
    cu ("Commercial aviation dynamics shape travel industry.")),
   (fun a => a.category == cu ("business-aviation"),
    cu ("Business aviation sector shows evolving market trends."))]

/-- First matching rule wins; no match yields the generic sentence. -/
def runCascade (a : Article) : List ((Article → Bool) × JStr) → JStr
  | [] => cu ("Industry developments to monitor closely.")
  | r :: rest => if r.1 a then r.2 else runCascade a rest

/-- The part of the Gemini response body `generateTakeaway` inspects:
`data.candidates?.[0]?.content?.parts?.[0]?.text` when that chain yields a
string, otherwise `none`. -/
structure GeminiData where
  candidateText : Option JStr := none
deriving DecidableEq

/-- Outcome of the awaited `fetch` plus `response.json()` in
`generateTakeaway`: either that pair of awaits throws (transport error,
timeout, unparsable body), or it yields a parsed body. The source does
not check `response.ok`, so an HTTP error page that parses is an `ok`
body without candidate text. -/
inductive FetchOutcome where
  | throws
  | ok (data : GeminiData)
deriving DecidableEq

/-- Translation of `generateTakeaway` from scripts/fetch-rss.js. With no
API key, the fallback; a truthy candidate text is returned trimmed; every
other path (exception caught, or no usable text) falls back. The JS
function can never propagate an error: the `try` wraps everything after
the key check and the fallback return follows the `catch`. -/
def generateTakeaway (article : Article) (hasApiKey : Bool) (o : FetchOutcome) : JStr :=
  if !hasApiKey then createFallbackTakeaway article
  else
    match o with
    | FetchOutcome.throws => createFallbackTakeaway article
    | FetchOutcome.ok data =>
      match data.candidateText with
      | some t => if t.isEmpty then createFallbackTakeaway article else trimCU t
      | none => createFallbackTakeaway article

/-- The takeaway loop of `generateHTML` in scripts/fetch-rss.js: for each
article, `article.takeaway = await generateTakeaway(article)`. The
`outcomes` map supplies the network outcome of each call. -/
def processArticles (hasApiKey : Bool) (outcomes : Article → FetchOutcome)
    (articles : List Article) : List Article :=
  articles.map (fun a => { a with takeaway := some (generateTakeaway a hasApiKey (outcomes a)) })

/-- The persisted usage counter record of scripts/usage-limit.js. -/
structure Counters where
  date : JStr
  geminiCallsToday : Nat
deriving DecidableEq

/-- Translation of `loadCounters`: the persisted file is `none` when
missing or corrupted; a stored record dated other than today is discarded
and a fresh zero record for today is returned (nothing is written). -/
def loadCounters (stored : Option Counters) (today : JStr) : Counters :=
  match stored with
  | some data => if data.date == today then data else { date := today, geminiCallsToday := 0 }
  | none => { date := today, geminiCallsToday := 0 }

/-- Translation of `canSpendGemini`: read-only check
`counters.geminiCallsToday + callsNeeded <= cap`. -/
def canSpendGemini (callsNeeded cap : Nat) (stored : Option Counters) (today : JStr) : Bool :=
  (loadCounters stored today).geminiCallsToday + callsNeeded ≤ cap

/-- Translation of `recordGeminiCalls`: load (applying rollover), add,
persist synchronously, return the new total together with the new
persisted file content. -/
def recordGeminiCalls (count : Nat) (stored : Option Counters) (today : JStr) :
    Nat × Option Counters :=
  let counters := loadCounters stored today
  let updated := { counters with geminiCallsToday := counters.geminiCallsToday + count }
  (updated.geminiCallsToday, some updated)

/-- Translation of `geminiCallsRemaining`: `Math.max(0, cap - used)`
(truncated subtraction on naturals). -/
def geminiCallsRemaining (cap : Nat) (stored : Option Counters) (today : JStr) : Nat :=
  cap - (loadCounters stored today).geminiCallsToday

/-- State-passing form of `canSpendGemini`: the function only reads the
counter file, so the persisted state component is returned unchanged. -/
def canSpendGeminiS (callsNeeded cap : Nat) (stored : Option Counters) (today : JStr) :
    Bool × Option Counters :=
  (canSpendGemini callsNeeded cap stored today, stored)

/-- State-passing form of `geminiCallsRemaining` (read-only as well). -/
def geminiCallsRemainingS (cap : Nat) (stored : Option Counters) (today : JStr) :
    Nat × Option Counters :=
  (geminiCallsRemaining cap stored today, stored)

/-- A call to one of the two read-only limiter operations. -/
inductive QueryOp where
  | canSpendQ (callsNeeded cap : Nat)
  | remainingQ (cap : Nat)
deriving DecidableEq

/-- Run a sequence of read-only limiter calls, threading the persisted
counter file through, and return the final file content. -/
def runQueries (today : JStr) : List QueryOp → Option Counters → Option Counters
  | [], stored => stored
  | QueryOp.canSpendQ n cap :: rest, stored =>
    runQueries today rest (canSpendGeminiS n cap stored today).2
  | QueryOp.remainingQ cap :: rest, stored =>
    runQueries today rest (geminiCallsRemainingS cap stored today).2

/-- State-passing form of `generateTakeaway` with the persisted usage
counter threaded through: scripts/fetch-rss.js neither imports nor calls
the usage limiter, so the file content is returned unchanged on every
path. -/
def generateTakeawayWithQuota (article : Article) (hasApiKey : Bool) (o : FetchOutcome)
    (stored : Option Counters) : JStr × Option Counters :=
  (generateTakeaway article hasApiKey o, stored)

/-- The parts of a parsed Gemini response body `extractGeminiText` in
scripts/analyst-mode.js inspects: `candidates[0].content.parts` (each
entry the `text` member when it is a string), the top-level `output_text`
when it is a string, and the shorthand `candidates[0].text`. -/
structure GeminiResponse where
  parts : Option (List (Option JStr)) := none
  outputText : Option JStr := none
  candidateText : Option JStr := none
deriving DecidableEq

/-- JavaScript `Array.prototype.join('\n')`. -/
def joinNewline : List JStr → JStr
  | [] => []
  | [t] => t
  | t :: rest => t ++ [10] ++ joinNewline rest

/-- Third shape tried by `extractGeminiText`: `candidates[0].text` as a
nonempty string, trimmed. -/
def extractGeminiCand (data : GeminiResponse) : Option JStr :=
  match data.candidateText with
  | some t => if t.isEmpty then none else some (trimCU t)
  | none => none

/-- Second shape tried by `extractGeminiText`: a nonempty `output_text`
string, trimmed, else the third shape. -/
def extractGeminiAlt (data : GeminiResponse) : Option JStr :=
  match data.outputText with
  | some t => if t.isEmpty then extractGeminiCand data else some (trimCU t)
  | none => extractGeminiCand data

/-- Translation of `extractGeminiText` from scripts/analyst-mode.js: the
parts are mapped to their texts, falsy entries filtered out, joined with
newlines; a truthy join is returned trimmed, otherwise the alternative
shapes are tried in order. -/
def extractGeminiText (data : GeminiResponse) : Option JStr :=
  match data.parts with
  | some ps =>
    let joined := joinNewline ((ps.filterMap id).filter (fun t => !t.isEmpty))
    if joined.isEmpty then extractGeminiAlt data else some (trimCU joined)
  | none => extractGeminiAlt data

/-- Outcome of the quota-consuming call inside `generateAnalystBrief`:
the `fetch` itself rejects (transport error or the 20s timeout) before
`counted` is set, or the response arrives non-ok, or `response.json()`
throws after `counted` was set, or a body is parsed. -/
inductive BriefOutcome where
  | fetchThrows
  | httpError
  | jsonThrows
  | jsonOk (data : GeminiResponse)
deriving DecidableEq

/-- Translation of `generateAnalystBrief` from scripts/analyst-mode.js
with the persisted counter file threaded through. Without an API key the
function returns before any call. After the awaited `fetch` returns,
`recordGeminiCalls(1)` runs and `counted` is set; when the `fetch` itself
throws, the `catch` block records instead (`if (!counted)`), so every
attempted call records exactly once. The returned text is the extracted
brief or `null`. -/
def generateAnalystBrief (article : Article) (hasApiKey : Bool) (o : BriefOutcome)
    (stored : Option Counters) (today : JStr) : Option JStr × Option Counters :=
  if !hasApiKey then (none, stored)
  else
    match o with
    | BriefOutcome.fetchThrows => (none, (recordGeminiCalls 1 stored today).2)
    | BriefOutcome.httpError => (none, (recordGeminiCalls 1 stored today).2)
    | BriefOutcome.jsonThrows => (none, (recordGeminiCalls 1 stored today).2)
    | BriefOutcome.jsonOk data => (extractGeminiText data, (recordGeminiCalls 1 stored today).2)

/-- Stable insertion step of the descending-by-date sort: an element goes
before the first element whose date is not greater, so earlier input
elements precede later ones on ties, matching a stable comparator sort
with `(a, b) => dateB - dateA`. -/
def insertByDateDesc (a : Article) : List Article → List Article
  | [] => [a]
  | b :: rest =>
    if b.publishedAt ≤ a.publishedAt then a :: b :: rest else b :: insertByDateDesc a rest

/-- The `allArticles.sort(...)` step of `main`: stable sort by
`publishedAt`, newest first. -/
def sortByDateDesc (l : List Article) : List Article := l.foldr insertByDateDesc []

/-- The deduplication loop of `main`: articles whose `source.url` is
already in `seenUrls` are dropped, others are kept and their URL added.
Returns the deduplicated list and the final URL set. -/
def dedupeByUrl : List Article → List JStr → List Article × List JStr
  | [], seen => ([], seen)
  | a :: rest, seen =>
    if memCU a.sourceUrl seen then dedupeByUrl rest seen
    else
      let p := dedupeByUrl rest (a.sourceUrl :: seen)
      (a :: p.1, p.2)

/-- Translation of the merge-and-limit portion of `main` in
scripts/fetch-rss.js: partition manual articles by priority, sort the RSS
articles by date descending, deduplicate by URL, concatenate high-priority
manual, RSS, and the normal-priority manual entries whose URL is not in
the final URL set, then `slice(0, maxArticles)`. -/
def mergeArticles (rss manual : List Article) (maxArticles : Nat) : List Article :=
  let highPriorityManual := manual.filter (fun a => a.priority == cu ("high"))
  let normalManual := manual.filter (fun a => !(a.priority == cu ("high")))
  let sorted := sortByDateDesc rss
  let p := dedupeByUrl sorted []
  let combined :=
    highPriorityManual ++ p.1 ++ normalManual.filter (fun a => !memCU a.sourceUrl p.2)
  combined.take maxArticles

/-- Modelled from the wording of the specification (section 4.2, step 3):
deduplicate by `source.url`, first occurrence wins, subsequent
occurrences dropped. -/
def specDedup : List Article → List Article
  | [] => []
  | a :: rest => a :: specDedup (rest.filter (fun b => !(b.sourceUrl == a.sourceUrl)))
termination_by l => l.length
decreasing_by
  simp only [List.length_cons]
  exact Nat.lt_succ_of_le (List.length_filter_le _ _)

/-- The URLs of a list of articles. -/
def urlsOf (l : List Article) : List JStr := l.map (fun a => a.sourceUrl)

/-- Modelled from the wording of the specification (section 4.2 and claim
C4): high-priority manual in input order, then the RSS articles sorted by
date descending and deduplicated first-occurrence-wins, then the
normal-priority manual articles whose URL was not emitted by the RSS set,
truncated from the tail to the maximum. -/
def specMerge (rss manual : List Article) (maxArticles : Nat) : List Article :=
  let high := manual.filter (fun a => a.priority == cu ("high"))
  let normal := manual.filter (fun a => !(a.priority == cu ("high")))
  let dedupedRss := specDedup (sortByDateDesc rss)
  let emitted := urlsOf dedupedRss
  (high ++ dedupedRss ++ normal.filter (fun a => !memCU a.sourceUrl emitted)).take maxArticles

/-- Whether the external call of `generateTakeaway` failed: the awaits
threw (transport error, timeout, unparsable body) or the parsed body
carries no usable candidate text (HTTP error bodies and malformed or
empty payloads). -/
def outcomeFailed : FetchOutcome → Bool
  | FetchOutcome.throws => true
  | FetchOutcome.ok data =>
    match data.candidateText with
    | some t => t.isEmpty
    | none => true

/-- A concrete manual entry carrying an explicitly pre-set takeaway. -/
def presetManualArticle : Article :=
  { headline := cu ("Test headline"), category := cu ("industry"),
    sourceUrl := cu ("https://example.com/a"),
    takeaway := some (cu ("Preset takeaway.")), priority := cu ("high") }

/-- A concrete high-priority manual entry used in witnesses. -/
def highManualW : Article :=
  { headline := cu ("Manual high"), sourceUrl := cu ("https://example.com/high"),
    publishedAt := 50, priority := cu ("high") }

/-- A concrete manual list: one high-priority and one normal entry. -/
def manualListW : List Article :=
  [highManualW,
   { headline := cu ("Manual normal"), sourceUrl := cu ("https://example.com/normal"),
     publishedAt := 40, priority := cu ("normal") }]

/-- A concrete RSS list with a duplicated URL. -/
def rssListW : List Article :=
  [{ headline := cu ("RSS one"), sourceUrl := cu ("https://example.com/one"),
     publishedAt := 100 },
   { headline := cu ("RSS two"), sourceUrl := cu ("https://example.com/one"),
     publishedAt := 90 }]

/- ------------------------------------------------------------------ -/
/- Theorems -/
/- ------------------------------------------------------------------ -/

/-- The date stored by `loadCounters` is always the current UTC day:
either the persisted record already carries it, or a fresh record is
created with it. -/
theorem loadCounters_date (stored : Option Counters) (today : JStr) :
    (loadCounters stored today).date = today := by
  cases stored with
  | none => rfl
  | some c =>
    simp only [loadCounters]
    cases h : (c.date == today) with
    | true => simpa using eq_of_beq h
    | false => simp

/-- The full persisted state after a record call: today as the date and
the rolled-over count plus the recorded amount. -/
theorem recordGeminiCalls_eq (count : Nat) (stored : Option Counters) (today : JStr) :
    (recordGeminiCalls count stored today).2 =
      some { date := today,
             geminiCallsToday := (loadCounters stored today).geminiCallsToday + count } := by
  have hd := loadCounters_date stored today
  rcases hl : loadCounters stored today with ⟨d, k⟩
  rw [hl] at hd
  have hd2 : d = today := hd
  subst hd2
  simp [recordGeminiCalls, hl]

/-- C3: canSpendGemini returns true exactly when the rolled-over count
plus the needed calls fits under the cap; the quota scenario of the
specification: with 4 calls recorded today and cap 5, one more call is
allowed and two are not; after recording one call the total is 5 and one
more call is refused; and a counter dated other than today resets to zero
before the check. -/
theorem usage_limiter_canSpend_spec :
    (∀ (callsNeeded cap : Nat) (stored : Option Counters) (today : JStr),
       canSpendGemini callsNeeded cap stored today = true ↔
         (loadCounters stored today).geminiCallsToday + callsNeeded ≤ cap) ∧
    (∀ (c : Counters) (today : JStr), c.date ≠ today →
       loadCounters (some c) today = { date := today, geminiCallsToday := 0 }) ∧
    (∀ d : JStr, canSpendGemini 1 5 (some { date := d, geminiCallsToday := 4 }) d = true) ∧
    (∀ d : JStr, canSpendGemini 2 5 (some { date := d, geminiCallsToday := 4 }) d = false) ∧
    (∀ d : JStr, (recordGeminiCalls 1 (some { date := d, geminiCallsToday := 4 }) d).1 = 5) ∧
    (∀ d : JStr,
       canSpendGemini 1 5 (recordGeminiCalls 1 (some { date := d, geminiCallsToday := 4 }) d).2 d =
         false) := by
  refine ⟨?_, ?_, ?_, ?_, ?_, ?_⟩
  · intro callsNeeded cap stored today
    simp [canSpendGemini]
  · intro c today h
    simp [loadCounters, beq_iff_eq, h]
  · intro d
    simp [canSpendGemini, loadCounters]
  · intro d
    simp [canSpendGemini, loadCounters]
  · intro d
    simp [recordGeminiCalls, loadCounters]
  · intro d
    simp [canSpendGemini, recordGeminiCalls, loadCounters]

/-- Witness for usage_limiter_canSpend_spec: the rollover reset at a
concrete stale counter. -/
theorem usage_limiter_canSpend_spec_witness :
    loadCounters (some { date := cu ("2025-01-01"), geminiCallsToday := 7 }) (cu ("2025-01-02")) =
      { date := cu ("2025-01-02"), geminiCallsToday := 0 } ∧
    canSpendGemini 1 5
        (some { date := cu ("2025-01-03"), geminiCallsToday := 4 }) (cu ("2025-01-03")) = true :=
  ⟨usage_limiter_canSpend_spec.2.1 _ _ (by decide),
   usage_limiter_canSpend_spec.2.2.1 (cu ("2025-01-03"))⟩

/-- C10: any sequence of calls to the two read-only limiter operations
leaves the persisted counter file unchanged, and a record call persists
the rolled-over state: the stored date becomes today and the count is the
rolled-over count plus the recorded amount. -/
theorem limiter_queries_pure :
    (∀ (today : JStr) (ops : List QueryOp) (stored : Option Counters),
       runQueries today ops stored = stored) ∧
    (∀ (count : Nat) (stored : Option Counters) (today : JStr),
       (recordGeminiCalls count stored today).2 =
         some { date := today,
                geminiCallsToday := (loadCounters stored today).geminiCallsToday + count }) := by
  constructor
  · intro today ops
    induction ops with
    | nil => intro stored; rfl
    | cons op rest ih =>
      intro stored
      cases op with
      | canSpendQ n cap => exact ih stored
      | remainingQ cap => exact ih stored
  · intro count stored today
    exact recordGeminiCalls_eq count stored today

/-- C1: in scripts/analyst-mode.js every attempted external call records
exactly one quota call — the persisted file afterwards holds the
rolled-over count plus one on every outcome — but in scripts/fetch-rss.js
the takeaway generator performs the external call without touching the
usage limiter at all, so there the persisted counter increases by zero,
not one. -/
theorem analyst_records_once_takeaway_records_zero :
    (∀ (article : Article) (o : BriefOutcome) (stored : Option Counters) (today : JStr),
       (generateAnalystBrief article true o stored today).2 =
         some { date := today,
                geminiCallsToday := (loadCounters stored today).geminiCallsToday + 1 }) ∧
    (∀ (article : Article) (hasApiKey : Bool) (o : FetchOutcome) (stored : Option Counters),
       (generateTakeawayWithQuota article hasApiKey o stored).2 = stored) := by
  constructor
  · intro article o stored today
    cases o <;> simp [generateAnalystBrief, recordGeminiCalls_eq]
  · intro article hasApiKey o stored
    rfl

/-- C9: whenever the external summarization call fails — the awaits throw
(transport error or timeout) or the body has no usable text (HTTP error
or empty or malformed payload) — `generateTakeaway` returns the
rule-cascade fallback; the function is total, so no error reaches the
caller. -/
theorem takeaway_error_fallback :
    ∀ (article : Article) (hasApiKey : Bool) (o : FetchOutcome),
      outcomeFailed o = true →
        generateTakeaway article hasApiKey o = createFallbackTakeaway article := by
  intro article hasApiKey o h
  cases hasApiKey with
  | false => rfl
  | true =>
    cases o with
    | throws => rfl
    | ok data =>
      cases hc : data.candidateText with
      | none => simp [generateTakeaway, hc]
      | some t =>
        simp only [outcomeFailed, hc] at h
        simp [generateTakeaway, hc, h]

/-- Witness for takeaway_error_fallback at a concrete article and a
throwing call. -/
theorem takeaway_error_fallback_witness :
    outcomeFailed FetchOutcome.throws = true ∧
      generateTakeaway { category := cu ("safety") } true FetchOutcome.throws =
        createFallbackTakeaway { category := cu ("safety") } :=
  ⟨rfl, takeaway_error_fallback _ true FetchOutcome.throws rfl⟩

/-- C2 counterexample: a manual entry with an explicitly pre-set takeaway
is overwritten — with no API key, the output article carries the generic
fallback sentence, not the pre-set value. -/
theorem preset_takeaway_overwritten_cex :
    (processArticles false (fun _ => FetchOutcome.throws) [presetManualArticle]).map
        Article.takeaway ≠ [presetManualArticle.takeaway] ∧
    (processArticles false (fun _ => FetchOutcome.throws) [presetManualArticle]).map
        Article.takeaway = [some (cu ("Industry developments to monitor closely."))] := by
  constructor
  · decide
  · decide

/-- C2 amended: the takeaway loop of `generateHTML` overwrites every
article takeaway, including pre-set manual ones, with the output of the
generator, and the generator output never depends on the pre-set
value. -/
theorem takeaway_overwrite_spec :
    (∀ (hasApiKey : Bool) (outcomes : Article → FetchOutcome) (articles : List Article),
       (processArticles hasApiKey outcomes articles).map Article.takeaway =
         articles.map (fun a => some (generateTakeaway a hasApiKey (outcomes a)))) ∧
    (∀ (a : Article) (tw : Option JStr) (hasApiKey : Bool) (o : FetchOutcome),
       generateTakeaway { a with takeaway := tw } hasApiKey o =
         generateTakeaway a hasApiKey o) := by
  constructor
  · intro hasApiKey outcomes articles
    simp [processArticles, List.map_map, Function.comp]
  · intro a tw hasApiKey o
    rfl

/-- A cascade over rules none of which matches yields the generic
sentence. -/
theorem runCascade_no_match (a : Article) :
    ∀ rules : List ((Article → Bool) × JStr), rules.all (fun r => !r.1 a) = true →
      runCascade a rules = cu ("Industry developments to monitor closely.") := by
  intro rules
  induction rules with
  | nil => intro _; rfl
  | cons r rest ih =>
    intro h
    simp only [List.all_cons, Bool.and_eq_true, Bool.not_eq_true'] at h
    simp [runCascade, h.1, ih h.2]

/-- C8: `createFallbackTakeaway` equals the first-match-wins cascade over
the ordered rule list; in particular the safety condition (category
"safety" or a safety keyword in the lowercased headline plus blurb)
yields the fixed safety sentence, and an article matching no rule yields
the generic fallback sentence. -/
theorem fallback_cascade_spec :
    (∀ a : Article, createFallbackTakeaway a = runCascade a fallbackRules) ∧
    (∀ a : Article,
       (a.category == cu ("safety") || containsSub (cu ("safety")) (fallbackText a) ||
         containsSub (cu ("crash")) (fallbackText a) ||
         containsSub (cu ("incident")) (fallbackText a)) = true →
       createFallbackTakeaway a = cu ("Safety implications warrant industry attention.")) ∧
    (∀ a : Article, fallbackRules.all (fun r => !r.1 a) = true →
       createFallbackTakeaway a = cu ("Industry developments to monitor closely.")) := by
  have h1 : ∀ a : Article, createFallbackTakeaway a = runCascade a fallbackRules := by
    intro a
    rfl
  refine ⟨h1, ?_, ?_⟩
  · intro a h
    simp [createFallbackTakeaway, h]
  · intro a h
    rw [h1 a]
    exact runCascade_no_match a fallbackRules h

/-- Witness for fallback_cascade_spec: a safety-category article gets the
safety sentence, and an article matching no rule gets the generic
sentence. -/
theorem fallback_cascade_spec_witness :
    createFallbackTakeaway { category := cu ("safety") } =
      cu ("Safety implications warrant industry attention.") ∧
    createFallbackTakeaway { headline := cu ("zzz"), category := cu ("corporate") } =
      cu ("Industry developments to monitor closely.") :=
  ⟨fallback_cascade_spec.2.1 _ (by decide), fallback_cascade_spec.2.2 _ (by decide)⟩

/-- Truncating to 32 bits preserves the residue modulo 2 to the 32. -/
theorem toInt32_emod (x : Int) : toInt32 x % 4294967296 = x % 4294967296 := by
  simp only [toInt32]
  split_ifs <;> omega

/-- Equal residues modulo 2 to the 32 truncate equally. -/
theorem toInt32_congr {x y : Int} (hxy : x % 4294967296 = y % 4294967296) :
    toInt32 x = toInt32 y := by
  simp only [toInt32]
  rw [hxy]

/-- The source hash step (shift wrapped on its own, then the whole sum
folded) equals the single-fold rolling-hash step of the specification. -/
theorem hashStep_eq_spec : hashStep = specHashStep := by
  funext h c
  apply toInt32_congr
  have hm := toInt32_emod (h * 32)
  omega

/-- C6: the generated article id is exactly the 32-bit rolling hash of
`title + "-" + url` rendered as an unsigned base-36 string, and identical
(title, link) pairs always produce the same id. -/
theorem generateId_spec :
    (∀ title url : JStr, generateId title url = specGenerateId title url) ∧
    (∀ t1 u1 t2 u2 : JStr, t1 = t2 → u1 = u2 → generateId t1 u1 = generateId t2 u2) := by
  constructor
  · intro title url
    simp [generateId, specGenerateId, hashStep_eq_spec]
  · intro t1 u1 t2 u2 h1 h2
    rw [h1, h2]

/-- Witness for generateId_spec: determinism at a concrete pair. -/
theorem generateId_spec_witness :
    cu ("Jet") = cu ("Jet") ∧
      generateId (cu ("Jet")) (cu ("https://example.com")) =
        generateId (cu ("Jet")) (cu ("https://example.com")) :=
  ⟨rfl, generateId_spec.2 _ _ _ _ rfl rfl⟩

/-- A fixed-pattern replacement pass leaves a string with no occurrence
of the pattern unchanged. -/
theorem raGo_no_occ (pat rep : JStr) :
    ∀ s : JStr, containsSub pat s = false → raGo pat rep 0 s = s := by
  intro s
  induction s with
  | nil => intro _; rfl
  | cons c rest ih =>
    intro h
    simp only [containsSub, Bool.or_eq_false_iff] at h
    rw [raGo, h.1]
    simp [ih h.2]

/-- Form of raGo_no_occ for `replaceAll`. -/
theorem replaceAll_no_occ (pat rep s : JStr) (h : containsSub pat s = false) :
    replaceAll pat rep s = s :=
  raGo_no_occ pat rep s h

/-- The decimal entity scanner leaves a string without a decimal entity
unchanged, at any fuel. -/
theorem numEntGo_no_occ :
    ∀ (fuel : Nat) (l : JStr), hasNumEntGo fuel l = false → numEntGo fuel l = l := by
  intro fuel
  induction fuel with
  | zero => intro l _; rfl
  | succ fuel ih =>
    intro l h
    cases l with
    | nil => rfl
    | cons c rest =>
      rw [hasNumEntGo] at h
      rw [numEntGo]
      cases hp : numEntTry (c :: rest) with
      | some v => rw [hp] at h; simp at h
      | none =>
        rw [hp] at h
        have h2 : hasNumEntGo fuel rest = false := h
        exact congrArg (List.cons c) (ih rest h2)

/-- Form of numEntGo_no_occ for the full pass. -/
theorem numEntRepl_no_occ (s : JStr) (h : hasNumEnt s = false) : numEntRepl s = s :=
  numEntGo_no_occ s.length s h

/-- The hexadecimal entity scanner leaves a string without a hexadecimal
entity unchanged, at any fuel. -/
theorem hexEntGo_no_occ :
    ∀ (fuel : Nat) (l : JStr), hasHexEntGo fuel l = false → hexEntGo fuel l = l := by
  intro fuel
  induction fuel with
  | zero => intro l _; rfl
  | succ fuel ih =>
    intro l h
    cases l with
    | nil => rfl
    | cons c rest =>
      rw [hasHexEntGo] at h
      rw [hexEntGo]
      cases hp : hexEntTry (c :: rest) with
      | some v => rw [hp] at h; simp at h
      | none =>
        rw [hp] at h
        have h2 : hasHexEntGo fuel rest = false := h
        exact congrArg (List.cons c) (ih rest h2)

/-- Form of hexEntGo_no_occ for the full pass. -/
theorem hexEntRepl_no_occ (s : JStr) (h : hasHexEnt s = false) : hexEntRepl s = s :=
  hexEntGo_no_occ s.length s h

/-- Decoding a string with no character-entity sequence changes
nothing: every pass of `decodeHtmlEntities` is a no-op on it. -/
theorem decodeHtmlEntities_clean :
    ∀ s : JStr, entityFree s = true → decodeHtmlEntities s = s := by
  intro s h
  simp only [entityFree, namedEntityPatterns, Bool.and_eq_true, Bool.not_eq_true',
    List.any_cons, List.any_nil, Bool.or_eq_false_iff] at h
  obtain ⟨⟨hnum, hhex⟩, hamp, h1, h2, h3, h4, h5, h6, h7, h8, h9, h10, h11, h12, h13, -⟩ := h
  cases s with
  | nil => rfl
  | cons c rest =>
    simp only [decodeHtmlEntities, List.isEmpty_cons, Bool.false_eq_true, if_false]
    rw [numEntRepl_no_occ _ hnum, hexEntRepl_no_occ _ hhex,
      replaceAll_no_occ _ _ _ hamp, replaceAll_no_occ _ _ _ h1, replaceAll_no_occ _ _ _ h2,
      replaceAll_no_occ _ _ _ h3, replaceAll_no_occ _ _ _ h4, replaceAll_no_occ _ _ _ h5,
      replaceAll_no_occ _ _ _ h6, replaceAll_no_occ _ _ _ h7, replaceAll_no_occ _ _ _ h8,
      replaceAll_no_occ _ _ _ h9, replaceAll_no_occ _ _ _ h10, replaceAll_no_occ _ _ _ h11,
      replaceAll_no_occ _ _ _ h12, replaceAll_no_occ _ _ _ h13]

/-- C7: entity decoding is single-pass and idempotent on clean input —
a string with no character-entity sequence decodes to itself, and the
string `&amp;amp;` decodes to exactly `&amp;`. -/
theorem entity_decoding_single_pass :
    (∀ s : JStr, entityFree s = true → decodeHtmlEntities s = s) ∧
    decodeHtmlEntities (cu ("&amp;amp;")) = cu ("&amp;") :=
  ⟨decodeHtmlEntities_clean, by decide⟩

/-- Witness for entity_decoding_single_pass: a clean string containing a
bare ampersand decodes to itself. -/
theorem entity_decoding_single_pass_witness :
    entityFree (cu ("A & B < C")) = true ∧
      decodeHtmlEntities (cu ("A & B < C")) = cu ("A & B < C") :=
  ⟨by decide, entity_decoding_single_pass.1 _ (by decide)⟩

/-- C5 counterexample: a feed item whose title is the one-space string is
truthy, so the placeholder does not apply, and the cleaning pipeline
yields an empty headline for the normalized record. -/
theorem normalizer_empty_headline_cex :
    (normalizeHeadlineBlurb { title := some (JsonField.str [32]) }).1 = [] := by decide

/-- C5 amended: for every feed item the blurb has length at most 300 and
is the cleaned text truncated at 297 units with the ellipsis marker when
the cleaned text exceeds 300; the headline is the placeholder (hence
non-empty) when the title fields are absent, but a present whitespace-only
or markup-only title cleans to an empty headline. -/
theorem normalizer_blurb_headline_spec :
    (∀ item : FeedItem, (normalizeHeadlineBlurb item).2.length ≤ 300) ∧
    (∀ d : JStr, 300 < (cleanDescCore d).length →
       cleanDescription d = (cleanDescCore d).take 297 ++ [46, 46, 46]) ∧
    (∀ item : FeedItem, item.title = none → item.dcTitle = none →
       (normalizeHeadlineBlurb item).1 = cu ("Untitled")) := by
  have hlen : ∀ d : JStr, (cleanDescription d).length ≤ 300 := by
    intro d
    simp only [cleanDescription]
    split_ifs with hE hL
    · simp
    · simp only [List.length_append, List.length_take, List.length_cons, List.length_nil]
      omega
    · omega
  refine ⟨fun item => hlen _, ?_, ?_⟩
  · intro d h
    cases hd : d.isEmpty with
    | true =>
      have hd2 : d = [] := by simpa using hd
      subst hd2
      have hc : cleanDescCore [] = [] := rfl
      rw [hc] at h
      simp at h
    | false =>
      simp only [cleanDescription, hd, Bool.false_eq_true, if_false, if_pos h]
  · intro item h1 h2
    have he : extractTitle item = cu ("Untitled") := by
      simp [extractTitle, firstTruthy, fieldTruthy, h1, h2]
    simp only [normalizeHeadlineBlurb, he]
    decide

set_option maxRecDepth 100000 in
/-- Witness for normalizer_blurb_headline_spec: a concrete short
description, a concrete 301-unit description that gets truncated with the
ellipsis marker, and a concrete item with no title fields. -/
theorem normalizer_blurb_headline_spec_witness :
    (normalizeHeadlineBlurb { description := some (JsonField.str (cu ("Hello world"))) }).2.length ≤
      300 ∧
    (300 < (cleanDescCore (List.replicate 301 97)).length ∧
      cleanDescription (List.replicate 301 97) =
        (cleanDescCore (List.replicate 301 97)).take 297 ++ [46, 46, 46]) ∧
    (normalizeHeadlineBlurb {}).1 = cu ("Untitled") :=
  ⟨normalizer_blurb_headline_spec.1 _,
   ⟨by decide, normalizer_blurb_headline_spec.2.1 _ (by decide)⟩,
   normalizer_blurb_headline_spec.2.2 {} rfl rfl⟩

/-- memCU decides list membership. -/
theorem memCU_iff (u : JStr) : ∀ l : List JStr, memCU u l = true ↔ u ∈ l := by
  intro l
  induction l with
  | nil => simp [memCU]
  | cons v rest ih => simp [memCU, ih, beq_iff_eq]

/-- Bool equality from equivalence of the decided propositions. -/
theorem bool_eq_of_iff {a b : Bool} (h : a = true ↔ b = true) : a = b := by
  cases a <;> cases b <;> simp_all

/-- The deduplication loop relative to an initial seen set computes the
first-occurrence-wins deduplication of the part not already seen. -/
theorem dedupeByUrl_fst :
    ∀ (l : List Article) (seen : List JStr),
      (dedupeByUrl l seen).1 = specDedup (l.filter (fun a => !memCU a.sourceUrl seen)) := by
  intro l
  induction l with
  | nil =>
    intro seen
    rw [List.filter_nil, specDedup]
    rfl
  | cons a rest ih =>
    intro seen
    cases hm : memCU a.sourceUrl seen with
    | true =>
      have lhs : (dedupeByUrl (a :: rest) seen).1 = (dedupeByUrl rest seen).1 := by
        simp [dedupeByUrl, hm]
      have hfil : (a :: rest).filter (fun b => !memCU b.sourceUrl seen) =
          rest.filter (fun b => !memCU b.sourceUrl seen) := by
        simp [List.filter_cons, hm]
      rw [lhs, hfil, ih]
    | false =>
      have lhs : (dedupeByUrl (a :: rest) seen).1 =
          a :: (dedupeByUrl rest (a.sourceUrl :: seen)).1 := by
        simp [dedupeByUrl, hm]
      have hfil : (a :: rest).filter (fun b => !memCU b.sourceUrl seen) =
          a :: rest.filter (fun b => !memCU b.sourceUrl seen) := by
        simp [List.filter_cons, hm]
      have hp2 : (fun b : Article => !memCU b.sourceUrl (a.sourceUrl :: seen)) =
          (fun b : Article => !(b.sourceUrl == a.sourceUrl) && !memCU b.sourceUrl seen) := by
        funext b
        simp [memCU, Bool.not_or]
      rw [lhs, ih, hp2, hfil, specDedup, List.filter_filter]

/-- Membership in the final seen set of the deduplication loop: the URLs
of the input plus the initial seen set. -/
theorem dedupeByUrl_seen :
    ∀ (l : List Article) (seen : List JStr) (u : JStr),
      memCU u (dedupeByUrl l seen).2 = (memCU u (urlsOf l) || memCU u seen) := by
  intro l
  induction l with
  | nil => intro seen u; simp [dedupeByUrl, urlsOf, memCU]
  | cons a rest ih =>
    intro seen u
    cases hm : memCU a.sourceUrl seen with
    | true =>
      have lhs : (dedupeByUrl (a :: rest) seen).2 = (dedupeByUrl rest seen).2 := by
        simp [dedupeByUrl, hm]
      rw [lhs, ih]
      cases hu : (u == a.sourceUrl) with
      | false => simp [urlsOf, memCU, hu]
      | true =>
        have he : u = a.sourceUrl := eq_of_beq hu
        subst he
        simp [urlsOf, memCU, hm]
    | false =>
      have lhs : (dedupeByUrl (a :: rest) seen).2 = (dedupeByUrl rest (a.sourceUrl :: seen)).2 := by
        simp [dedupeByUrl, hm]
      rw [lhs, ih]
      simp [urlsOf, memCU, Bool.or_comm, Bool.or_left_comm, Bool.or_assoc]

/-- Deduplication keeps at least one representative of every URL: the URL
sets before and after agree. -/
theorem urlsOf_specDedup :
    ∀ (l : List Article) (u : JStr), u ∈ urlsOf (specDedup l) ↔ u ∈ urlsOf l
  | [], u => by rw [specDedup]
  | a :: rest, u => by
    rw [specDedup]
    by_cases hu : u = a.sourceUrl
    · subst hu
      simp [urlsOf]
    · simp only [urlsOf, List.map_cons, List.mem_cons]
      have hrec := urlsOf_specDedup (rest.filter (fun b => !(b.sourceUrl == a.sourceUrl))) u
      simp only [urlsOf] at hrec
      rw [hrec]
      constructor
      · rintro (h | h)
        · exact Or.inl h
        · right
          simp only [urlsOf, List.mem_map, List.mem_filter] at h ⊢
          obtain ⟨b, ⟨hb, -⟩, he⟩ := h
          exact ⟨b, hb, he⟩
      · rintro (h | h)
        · exact Or.inl h
        · right
          simp only [urlsOf, List.mem_map, List.mem_filter] at h ⊢
          obtain ⟨b, hb, he⟩ := h
          refine ⟨b, ⟨hb, ?_⟩, he⟩
          rw [he]
          simp [hu]
termination_by l => l.length
decreasing_by
  simp only [List.length_cons]
  exact Nat.lt_succ_of_le (List.length_filter_le _ _)

/-- C4: the merge step of `main` equals the specification merge — high
priority manual entries in input order, the date-sorted RSS articles
deduplicated first-occurrence-wins, then the normal-priority manual
entries whose URL the RSS set did not emit, truncated from the tail —
and a high-priority manual entry is in the output whenever the
high-priority entries alone fit under the cap. -/
theorem merger_spec :
    (∀ (rss manual : List Article) (maxArticles : Nat),
       mergeArticles rss manual maxArticles = specMerge rss manual maxArticles) ∧
    (∀ (rss manual : List Article) (maxArticles : Nat) (a : Article),
       (manual.filter (fun x => x.priority == cu ("high"))).length ≤ maxArticles →
       a ∈ manual.filter (fun x => x.priority == cu ("high")) →
       a ∈ mergeArticles rss manual maxArticles) := by
  constructor
  · intro rss manual maxArticles
    have hfst : (dedupeByUrl (sortByDateDesc rss) []).1 = specDedup (sortByDateDesc rss) := by
      rw [dedupeByUrl_fst]
      congr 1
      simp [memCU]
    have hpred : (fun a : Article => !memCU a.sourceUrl (dedupeByUrl (sortByDateDesc rss) []).2) =
        (fun a : Article => !memCU a.sourceUrl (urlsOf (specDedup (sortByDateDesc rss)))) := by
      funext a
      have hseen : memCU a.sourceUrl (dedupeByUrl (sortByDateDesc rss) []).2 =
          memCU a.sourceUrl (urlsOf (specDedup (sortByDateDesc rss))) := by
        rw [dedupeByUrl_seen]
        simp only [memCU, Bool.or_false]
        exact bool_eq_of_iff
          ((memCU_iff _ _).trans
            ((urlsOf_specDedup (sortByDateDesc rss) a.sourceUrl).symm.trans
              (memCU_iff _ _).symm))
      rw [hseen]
    simp only [mergeArticles, specMerge]
    rw [hfst, hpred]
  · intro rss manual maxArticles a hlen hmem
    simp only [mergeArticles]
    rw [List.take_append_eq_append_take, List.take_append_eq_append_take,
      List.take_of_length_le hlen]
    exact List.mem_append_left _ (List.mem_append_left _ hmem)

/-- Witness for merger_spec: with a cap of 5, a concrete high-priority
manual entry survives the merge of a two-entry manual list and a
duplicated two-article RSS list. -/
theorem merger_spec_witness :
    ((manualListW.filter (fun x => x.priority == cu ("high"))).length ≤ 5 ∧
      highManualW ∈ manualListW.filter (fun x => x.priority == cu ("high"))) ∧
    highManualW ∈ mergeArticles rssListW manualListW 5 :=
  ⟨⟨by decide, by decide⟩, merger_spec.2 rssListW manualListW 5 highManualW (by decide) (by decide)⟩

end AeroNews
